import Mathlib

/-
Verification of the dataset-attribution component
(`captum/attr/_core/dataloader_attr.py`).

The development contains two complementary shallow embeddings:

* a multi-dimensional tensor model (`Tensor`: a shape together with a total
  row-major evaluation function) used for `_convert_output_shape` and for the
  orchestration in `DataloaderAttribution.attribute`;

* a list-of-rows model (`BT`: a batched tensor is the list of its rows, a row
  is a list of rationals) used for the per-pass traversal
  `_forward_with_dataloader`, whose logic is purely per-element.
-/

namespace DataloaderAttr

/-- A multi-dimensional tensor: a shape together with a total evaluation
function on multi-indices.  Row-major order is used wherever the linear
layout matters (reshape, enumeration of elements). -/
structure Tensor (α : Type) where
  shape : List ℕ
  val : List ℕ → α

/-- Row-major linearisation of a multi-index with respect to a shape. -/
def flattenIdx : List ℕ → List ℕ → ℕ
  | _, [] => 0
  | [], _ => 0
  | _ :: ds, i :: is => i * ds.prod + flattenIdx ds is

/-- Inverse of row-major linearisation. -/
def unflattenIdx : List ℕ → ℕ → List ℕ
  | [], _ => []
  | _ :: ds, n => n / ds.prod :: unflattenIdx ds (n % ds.prod)

/-- A multi-index is valid for a shape: same rank and every coordinate is
below the corresponding dimension. -/
def ValidIdx (idx s : List ℕ) : Prop := List.Forall₂ (· < ·) idx s

/-- Embedding of `torch.Tensor.reshape`: reinterpret the row-major layout
under a new shape. -/
def Tensor.reshape {α : Type} (t : Tensor α) (s : List ℕ) : Tensor α :=
  ⟨s, fun idx => t.val (unflattenIdx t.shape (flattenIdx s idx))⟩

/-- Embedding of `torch.Tensor.expand`: the target shape is aligned with the
tensor's shape at the trailing dimensions; size-1 dimensions broadcast (their
coordinate is ignored). -/
def Tensor.expand {α : Type} (t : Tensor α) (s : List ℕ) : Tensor α :=
  ⟨s, fun idx =>
    t.val (List.zipWith (fun d i => if d = 1 then 0 else i) t.shape
      (idx.drop (s.length - t.shape.length)))⟩

/-- Embedding of `torch.gather` along the last axis (`dim = -1`): the result
has the index tensor's shape and reads the data tensor at the position whose
last coordinate is replaced by the gathered index value. -/
def Tensor.gatherLast {α : Type} (t : Tensor α) (index : Tensor ℕ) : Tensor α :=
  ⟨index.shape, fun idx => t.val (idx.dropLast ++ [index.val idx])⟩

/-- All element values of an integer tensor, in row-major order. -/
def tvalues (t : Tensor ℕ) : List ℕ :=
  (List.range t.shape.prod).map fun n => t.val (unflattenIdx t.shape n)

/-- Embedding of `torch.unique` (the source only ever uses the set of
values, so deduplication order is irrelevant). -/
def unique_values (t : Tensor ℕ) : List ℕ := (tvalues t).dedup

/-- `torch.ones((a, b))`. -/
def ones2 (a b : ℕ) : Tensor ℚ := ⟨[a, b], fun _ => 1⟩

/-- Role constant `InputRole.need_attr` from the source. -/
def InputRole.need_attr : ℕ := 0

/-- Role constant `InputRole.need_forward` from the source. -/
def InputRole.need_forward : ℕ := 1

/-- Role constant `InputRole.no_forward` from the source. -/
def InputRole.no_forward : ℕ := 2

/-- The loop body of `_convert_output_shape` for one (input, mask) pair:
expand the feature mask to `(*output_dims, *inp_feature_dims)`,
unsqueeze/expand the unique attribution tensor when the input has more than
one feature dimension, and gather along the last axis. -/
def convert_one (unique_attr : Tensor ℚ) (im : Tensor ℚ × Tensor ℕ) : Tensor ℚ :=
  let inp := im.1
  let mask := im.2
  let output_dims := unique_attr.shape.dropLast
  let n_features := unique_attr.shape.getLastD 0
  let attr_shape := output_dims ++ inp.shape.drop 1
  let expanded_feature_indices := mask.expand attr_shape
  let expanded_unique_attr :=
    if 2 < inp.shape.length then
      let extra_inp_dims := (inp.shape.drop 1).dropLast
      let n_extra_dims := extra_inp_dims.length
      let unsqueezed_shape := output_dims ++ List.replicate n_extra_dims 1 ++ [n_features]
      let expanded_shape := output_dims ++ extra_inp_dims ++ [n_features]
      (unique_attr.reshape unsqueezed_shape).expand expanded_shape
    else unique_attr
  expanded_unique_attr.gatherLast expanded_feature_indices

/-- Embedding of `_convert_output_shape`, translated statement by statement
from the source: the loop over `zip(attr_inputs, feature_mask)` applying
`convert_one`. -/
def convert_output_shape (unique_attr : Tensor ℚ) (attr_inputs : List (Tensor ℚ))
    (feature_mask : List (Tensor ℕ)) : List (Tensor ℚ) :=
  (attr_inputs.zip feature_mask).map (convert_one unique_attr)

/-
The list-of-rows model used for `_forward_with_dataloader`.
-/

/-- One row of a batched tensor. -/
abbrev Row := List ℚ

/-- A batched tensor: the list of its rows. -/
abbrev BT := List Row

/-- A flattened per-row feature mask (the mask's batch dimension is 1, so a
single row describes every batch row). -/
abbrev Mask := List ℕ

/-- A baseline: either a scalar or a single-row tensor. -/
abbrev Baseline := ℚ ⊕ Row

/-- Value of a baseline at a flattened element position (scalar baselines
broadcast to every position). -/
def baseline_at (b : Baseline) (j : ℕ) : ℚ :=
  match b with
  | Sum.inl s => s
  | Sum.inr row => row.getD j 0

/-- Membership test of the set `perturbation_mask_indices` built at the top
of `_forward_with_dataloader`: mask index `i` is touched when some feature
index `j` has bit 0 in the perturbation pattern and `i` belongs to
`feature_idx_to_mask_idx[j]`. -/
def perturbation_mask_indices (pattern : List ℚ) (feature_idx_to_mask_idx : ℕ → List ℕ)
    (i : ℕ) : Bool :=
  (List.range pattern.length).any fun j =>
    decide (pattern.getD j 1 = 0) && decide (i ∈ feature_idx_to_mask_idx j)

/-- Gathering the perturbation pattern at the mask's values: the embedding of
the tensor indexing `perturbed_feature_indices[0][mask_elem]`. -/
def gather_pattern (pattern : List ℚ) (mask : Mask) : Row :=
  mask.map fun k => pattern.getD k 0

/-- The tuple `perturbation_mask` built once per pass: the gathered binary
mask for touched inputs, `None` for untouched ones. -/
def perturbation_mask (pattern : List ℚ) (feature_idx_to_mask_idx : ℕ → List ℕ)
    (feature_mask : List Mask) : List (Option Row) :=
  feature_mask.enum.map fun p =>
    if perturbation_mask_indices pattern feature_idx_to_mask_idx p.1 then
      some (gather_pattern pattern p.2)
    else none

/-- Elementwise `inp * pert_mask + baseline * (1 - pert_mask)` on one row,
with the baseline broadcast. -/
def perturb_row (row : Row) (pm : Row) (b : Baseline) : Row :=
  (List.range row.length).map fun j =>
    row.getD j 0 * pm.getD j 0 + baseline_at b j * (1 - pm.getD j 0)

/-- The loop over `zip(inputs, input_roles)` in `_forward_with_dataloader`,
threading `attr_inp_count` exactly as the source does. -/
def perturb_inputs (pmask : List (Option Row)) (baselines : List Baseline) :
    List BT → List ℕ → ℕ → List BT
  | [], _, _ => []
  | _ :: _, [], _ => []
  | inp :: rest, role :: roles, c =>
    if role ≠ InputRole.need_attr then
      inp :: perturb_inputs pmask baselines rest roles c
    else
      match pmask.getD c none with
      | none => inp :: perturb_inputs pmask baselines rest roles (c + 1)
      | some pm =>
        inp.map (fun row => perturb_row row pm (baselines.getD c (Sum.inl 0)))
          :: perturb_inputs pmask baselines rest roles (c + 1)

/-- Perturbation of one dataloader batch, composing the per-pass mask
construction with the per-batch loop. -/
def perturb_batch (pattern : List ℚ) (feature_idx_to_mask_idx : ℕ → List ℕ)
    (input_roles : List ℕ) (baselines : List Baseline) (feature_mask : List Mask)
    (inputs : List BT) : List BT :=
  perturb_inputs (perturbation_mask pattern feature_idx_to_mask_idx feature_mask)
    baselines inputs input_roles 0

/-- The tuple handed to the forward function: every perturbed input whose
role is not `no_forward`, in the original order. -/
def forward_inputs (input_roles : List ℕ) (perturbed_inputs : List BT) : List BT :=
  ((perturbed_inputs.zip input_roles).filter fun p =>
    decide (p.2 ≠ InputRole.no_forward)).map Prod.fst

/-- Embedding of `_forward_with_dataloader`: one full traversal of the
dataloader for one perturbation pattern.  The external forward function, the
reduce callback and the optional to-metric transform are parameters; the
result is either the final accumulator or the metric. -/
def forward_with_dataloader {Out A M : Type} (forward_func : List BT → Out)
    (perturbed_feature_indices : List ℚ)
    (dataloader : List (List BT)) (input_roles : List ℕ)
    (baselines : List Baseline) (feature_mask : List Mask)
    (reduce : Option A → Out → List BT → A)
    (to_metric : Option (Option A → M))
    (perturbation_per_pass : ℤ) (show_progress : Bool)
    (feature_idx_to_mask_idx : ℕ → List ℕ) : Option A ⊕ M :=
  let accum := dataloader.foldl
    (fun accum inputs =>
      let perturbed := perturb_batch perturbed_feature_indices feature_idx_to_mask_idx
        input_roles baselines feature_mask inputs
      some (reduce accum (forward_func (forward_inputs input_roles perturbed)) perturbed))
    none
  match to_metric with
  | some f => Sum.inr (f accum)
  | none => Sum.inl accum

/-- Embedding of `_concat_tensors`, the default reduce: concatenate batch
outputs along the batch dimension. -/
def concat_tensors (accum : Option BT) (cur_output : BT) (cur_inputs : List BT) : BT :=
  match accum with
  | none => cur_output
  | some a => a ++ cur_output

/-- A reduce callback that counts its invocations (an admissible reduce
function used to observe the traversal). -/
def count_calls {Out : Type} (accum : Option ℕ) (out : Out) (inp : List BT) : ℕ :=
  accum.getD 0 + 1

/-- A reduce callback that records the forward output and the perturbed
input tuple of every invocation, in order. -/
def record_calls {Out : Type} (accum : Option (List (Out × List BT))) (out : Out)
    (inp : List BT) : List (Out × List BT) :=
  accum.getD [] ++ [(out, inp)]

/-- The accumulator component of a traversal result. -/
def leftAcc {A M : Type} : Option A ⊕ M → Option A :=
  Sum.elim id fun _ => none

/-- Specification-side definition for the role-filtering refinement claim:
the list of tuple positions whose role is not `ExcludedFromForward`
(`no_forward`), in their original order.  Stated from the spec's words, to be
compared with the source's `forward_inputs` filtering. -/
def spec_forward_positions : List ℕ → List ℕ
  | [] => []
  | r :: rs =>
    if r ≠ InputRole.no_forward then 0 :: (spec_forward_positions rs).map (· + 1)
    else (spec_forward_positions rs).map (· + 1)

/-
The model of the public `attribute` operation.
-/

/-- One element yielded by the dataloader: either a tuple/list of tensors or
a bare tensor. -/
inductive DLItem
  | tup (ts : List (Tensor ℚ))
  | single (t : Tensor ℚ)

/-- A baseline argument of `attribute`: a scalar number or a tensor. -/
abbrev ABaseline := ℚ ⊕ Tensor ℚ

/-- The reduce callback handed to the black-box algorithm: either the
user-supplied callback or the source's default `_concat_tensors`. -/
inductive ReduceArg (R : Type)
  | user (r : R)
  | defaultConcat

/-- The `additional_forward_args` tuple passed to the black-box ablation
algorithm by `attribute`, field for field. -/
structure BBArgs (R T : Type) where
  dataloader : List DLItem
  input_roles : List ℕ
  baselines : List ABaseline
  feature_mask : List (Tensor ℕ)
  reduce : ReduceArg R
  to_metric : Option T
  perturbation_per_pass : ℤ
  show_progress : Bool
  feature_idx_to_mask_idx : ℕ → List ℕ

/-- The value returned by `attribute`: the flat unique attribution tensor, a
single reconstructed tensor, or a tuple of reconstructed tensors. -/
inductive AttrResult
  | flat (t : Tensor ℚ)
  | single (t : Tensor ℚ)
  | tupled (ts : List (Tensor ℚ))

/-- Modelled from the spec: `_format_baseline` (from `captum._utils.common`,
not under src/) keeps user-supplied baselines and defaults to the scalar
baseline zero for every attributable input. -/
def format_baseline (b : Option (List ABaseline)) (attr_inputs : List (Tensor ℚ)) :
    List ABaseline :=
  match b with
  | some bs => bs
  | none => attr_inputs.map fun _ => Sum.inl 0

/-- Default feature masks for a list of inputs starting at a given feature
index: each element of each input is its own feature, indices assigned
consecutively in input order (row-major inside one input). -/
def default_masks_from (start : ℕ) : List (Tensor ℚ) → List (Tensor ℕ)
  | [] => []
  | inp :: rest =>
    ⟨1 :: inp.shape.drop 1, fun idx => start + flattenIdx (inp.shape.drop 1) (idx.drop 1)⟩
      :: default_masks_from (start + (inp.shape.drop 1).prod) rest

/-- Modelled from the spec: `_format_feature_mask` (from
`captum._utils.common`, not under src/) keeps user-supplied masks and
defaults to one feature per element, indices assigned in input order. -/
def format_feature_mask (m : Option (List (Tensor ℕ))) (attr_inputs : List (Tensor ℚ)) :
    List (Tensor ℕ) :=
  match m with
  | some ms => ms
  | none => default_masks_from 0 attr_inputs

/-- Modelled from the spec: `_get_max_feature_index` (from
`captum._utils.common`, not under src/) is the maximum group id across all
masks. -/
def get_max_feature_index (masks : List (Tensor ℕ)) : ℕ :=
  (masks.map fun m => (tvalues m).foldr max 0).foldr max 0

/-- Modelled from the spec: `_format_output` (from `captum._utils.common`,
not under src/) returns the tuple itself when the original input was a
tuple, and the sole tensor when the original input was a single tensor. -/
def format_output (is_inputs_tuple : Bool) (attr : List (Tensor ℚ)) : AttrResult :=
  if is_inputs_tuple then AttrResult.tupled attr
  else AttrResult.single (attr.getD 0 ⟨[], fun _ => 0⟩)

/-- Validity of one baseline: tensors must have batch dimension exactly 1
(scalars are always fine). -/
def baselineOk (b : ABaseline) : Bool :=
  match b with
  | Sum.inl _ => true
  | Sum.inr t => t.shape.headD 0 == 1

/-- Validity of one feature mask: batch dimension exactly 1. -/
def maskOk (m : Tensor ℕ) : Bool := m.shape.headD 0 == 1

/-- The attributable inputs of the first batch: the tuple elements whose role
is `need_attr`, in order (source lines building `attr_inputs`). -/
def attr_inputs_of (inputs : List (Tensor ℚ)) (roles : List ℕ) : List (Tensor ℚ) :=
  ((inputs.zip roles).filter fun p => decide (p.2 = InputRole.need_attr)).map Prod.fst

/-- The reverse map `feature_idx_to_mask_idx` built by `attribute`: for each
attributable input's mask (in order), append the input's position to the
entry of every distinct feature index occurring in the mask. -/
def build_feature_idx_to_mask_idx (masks : List (Tensor ℕ)) : ℕ → List ℕ :=
  masks.enum.foldl
    (fun m p => fun j => if j ∈ unique_values p.2 then m j ++ [p.1] else m j)
    fun _ => []

/-- The straight-line tail of `DataloaderAttribution.attribute` after the
input roles have been resolved (source lines from building `attr_inputs` to
the final return): baseline and mask validation, reverse-map construction,
the single black-box call on the ones tensor, and output reconstruction. -/
def attribute_with_roles {R T : Type}
    (ablate : Tensor ℚ → BBArgs R T → Tensor ℚ)
    (dataloader : List DLItem) (inputs : List (Tensor ℚ)) (is_inputs_tuple : Bool)
    (roles : List ℕ)
    (baselines : Option (List ABaseline))
    (feature_mask : Option (List (Tensor ℕ)))
    (reduce : Option R) (to_metric : Option T)
    (perturbation_per_pass : ℤ) (show_progress : Bool)
    (return_input_shape : Bool) : Except String AttrResult :=
  let attr_inputs : List (Tensor ℚ) := attr_inputs_of inputs roles
  let bss := format_baseline baselines attr_inputs
  if attr_inputs.length = bss.length then
    if bss.all baselineOk then
      let fmask := format_feature_mask feature_mask attr_inputs
      if attr_inputs.length = fmask.length then
        if fmask.all maskOk then
          let fmap := build_feature_idx_to_mask_idx fmask
          let max_feature_idx := get_max_feature_index fmask
          let n_features := max_feature_idx + 1
          let red : ReduceArg R :=
            match reduce with
            | some r => ReduceArg.user r
            | none => ReduceArg.defaultConcat
          let feature_indices := ones2 1 n_features
          let unique_attr := ablate feature_indices
            ⟨dataloader, roles, bss, fmask, red, to_metric,
              perturbation_per_pass, show_progress, fmap⟩
          if return_input_shape then
            Except.ok (format_output is_inputs_tuple
              (convert_output_shape unique_attr attr_inputs fmask))
          else Except.ok (AttrResult.flat unique_attr)
        else Except.error "The 1st dim of feature_mask must be 1"
      else Except.error "Feature mask must have the same size as the return of the dataloader that need attribution"
    else Except.error "If the baseline is a tensor, its 1st dim of baseline must be 1"
  else Except.error "Baselines must have the same size as the return of the dataloader that need attribution"

/-- Embedding of `DataloaderAttribution.attribute`.  The black-box ablation
algorithm (`self.attr_method.attribute`) is the external parameter `ablate`;
failed assertions and the `StopIteration` of an empty dataloader are modelled
as `Except.error`.  A falsy `input_roles` (absent or the empty tuple) makes
every position `need_attr`, exactly as the source's `if input_roles:`. -/
def dataloader_attribute {R T : Type}
    (ablate : Tensor ℚ → BBArgs R T → Tensor ℚ)
    (dataloader : List DLItem)
    (input_roles : Option (List ℕ))
    (baselines : Option (List ABaseline))
    (feature_mask : Option (List (Tensor ℕ)))
    (reduce : Option R) (to_metric : Option T)
    (perturbation_per_pass : ℤ) (show_progress : Bool)
    (return_input_shape : Bool) : Except String AttrResult :=
  match dataloader.head? with
  | none => Except.error "StopIteration"
  | some item =>
    let inputs : List (Tensor ℚ) :=
      match item with
      | DLItem.tup ts => ts
      | DLItem.single t => [t]
    let is_inputs_tuple : Bool :=
      match item with
      | DLItem.tup _ => true
      | DLItem.single _ => false
    match input_roles with
    | some rs =>
      if rs = [] then
        attribute_with_roles ablate dataloader inputs is_inputs_tuple
          (inputs.map fun _ => InputRole.need_attr) baselines feature_mask reduce to_metric
          perturbation_per_pass show_progress return_input_shape
      else if rs.length = inputs.length then
        if ∃ r ∈ rs, r = InputRole.need_attr then
          attribute_with_roles ablate dataloader inputs is_inputs_tuple rs baselines
            feature_mask reduce to_metric perturbation_per_pass show_progress
            return_input_shape
        else Except.error "input_roles must contain at least one element need attribution"
      else Except.error "input_roles must have the same size as the return of the dataloader"
    | none =>
      attribute_with_roles ablate dataloader inputs is_inputs_tuple
        (inputs.map fun _ => InputRole.need_attr) baselines feature_mask reduce to_metric
        perturbation_per_pass show_progress return_input_shape

/-
The model of `DataloaderAttribution.__init__`.
-/

/-- The attribution-method types mentioned by the source and its
documentation; `type(attr_method)` comparisons become equality of these
tags. -/
inductive AttrMethodType
  | featureAblation
  | integratedGradients
  | saliency
  | conductance
deriving DecidableEq

/-- Printable name of an attribution-method type. -/
def AttrMethodType.methodName : AttrMethodType → String
  | AttrMethodType.featureAblation => "FeatureAblation"
  | AttrMethodType.integratedGradients => "IntegratedGradients"
  | AttrMethodType.saliency => "Saliency"
  | AttrMethodType.conductance => "Conductance"

/-- Embedding of `SUPPORTED_METHODS = {FeatureAblation}`. -/
def SUPPORTED_METHODS : List AttrMethodType := [AttrMethodType.featureAblation]

/-- Embedding of the constructor `DataloaderAttribution.__init__`: the
assertion `type(attr_method) in SUPPORTED_METHODS` fails with the
unsupported-method message before anything else happens. -/
def DataloaderAttribution.init (t : AttrMethodType) : Except String Unit :=
  if t ∈ SUPPORTED_METHODS then Except.ok ()
  else Except.error ("DataloaderAttribution does not support " ++ t.methodName)

/-
Lemmas about the traversal loop of `_forward_with_dataloader`.
-/

lemma perturb_inputs_length (pmask : List (Option Row)) (bs : List Baseline) :
    ∀ (inputs : List BT) (roles : List ℕ) (c : ℕ),
      (perturb_inputs pmask bs inputs roles c).length = min inputs.length roles.length := by
  intro inputs
  induction inputs with
  | nil => intro roles c; cases roles <;> simp [perturb_inputs]
  | cons i is ih =>
    intro roles c
    cases roles with
    | nil => simp [perturb_inputs]
    | cons r rs =>
      simp only [perturb_inputs]
      split
      · simpa [Nat.succ_min_succ] using ih rs c
      · cases h : pmask.getD c none <;>
          simpa [Nat.succ_min_succ] using ih rs (c + 1)

lemma perturb_batch_length (pattern : List ℚ) (fmap : ℕ → List ℕ) (roles : List ℕ)
    (bs : List Baseline) (fm : List Mask) (inputs : List BT) :
    (perturb_batch pattern fmap roles bs fm inputs).length = min inputs.length roles.length := by
  simp [perturb_batch, perturb_inputs_length]

lemma map_getD_shift (x : BT) (xs : List BT) (l : List ℕ) :
    (l.map (· + 1)).map (fun p => (x :: xs).getD p []) = l.map fun p => xs.getD p [] := by
  induction l with
  | nil => rfl
  | cons a l ih => simp only [List.map_cons, List.getD_cons_succ, ih]

lemma spec_forward_positions_drop (r : ℕ) (rs : List ℕ) (hr : r = InputRole.no_forward) :
    spec_forward_positions (r :: rs) = (spec_forward_positions rs).map (· + 1) := by
  simp [spec_forward_positions, hr]

lemma spec_forward_positions_keep (r : ℕ) (rs : List ℕ) (hr : r ≠ InputRole.no_forward) :
    spec_forward_positions (r :: rs) = 0 :: (spec_forward_positions rs).map (· + 1) := by
  simp [spec_forward_positions, hr]

lemma forward_inputs_eq_spec :
    ∀ (roles : List ℕ) (xs : List BT), xs.length = roles.length →
      forward_inputs roles xs = (spec_forward_positions roles).map fun p => xs.getD p [] := by
  intro roles
  induction roles with
  | nil =>
    intro xs h
    cases xs with
    | nil => simp [forward_inputs, spec_forward_positions]
    | cons x xs => simp at h
  | cons r rs ih =>
    intro xs h
    cases xs with
    | nil => simp at h
    | cons x xs =>
      have hlen : xs.length = rs.length := by simpa using h
      have hrec := ih xs hlen
      by_cases hr : r = InputRole.no_forward
      · have e2 : forward_inputs (r :: rs) (x :: xs) = forward_inputs rs xs := by
          simp [forward_inputs, List.filter_cons, hr]
        rw [e2, spec_forward_positions_drop r rs hr, map_getD_shift, hrec]
      · have e2 : forward_inputs (r :: rs) (x :: xs) = x :: forward_inputs rs xs := by
          simp [forward_inputs, List.filter_cons, hr]
        rw [e2, spec_forward_positions_keep r rs hr, List.map_cons, map_getD_shift, hrec]
        simp

lemma spec_forward_positions_mem :
    ∀ (roles : List ℕ) (k : ℕ),
      k ∈ spec_forward_positions roles ↔
        k < roles.length ∧ roles.getD k 0 ≠ InputRole.no_forward := by
  intro roles
  induction roles with
  | nil => intro k; simp [spec_forward_positions]
  | cons r rs ih =>
    intro k
    by_cases hr : r = InputRole.no_forward
    · rw [spec_forward_positions_drop r rs hr]
      cases k with
      | zero =>
        simp only [List.mem_map]
        constructor
        · rintro ⟨a, ha, h0⟩
          exact absurd h0 (by omega)
        · rintro ⟨h1, h2⟩
          exact absurd (show (r :: rs).getD 0 0 = InputRole.no_forward by simp [hr]) h2
      | succ k =>
        simp only [List.mem_map, List.length_cons, List.getD_cons_succ]
        constructor
        · rintro ⟨a, ha, hk⟩
          have h2 := (ih a).1 ha
          have ha2 : a = k := by omega
          subst ha2
          exact ⟨by omega, h2.2⟩
        · rintro ⟨h1, h2⟩
          exact ⟨k, (ih k).2 ⟨by omega, h2⟩, rfl⟩
    · rw [spec_forward_positions_keep r rs hr]
      cases k with
      | zero => simp [hr]
      | succ k =>
        simp only [List.mem_cons, List.mem_map, List.length_cons, List.getD_cons_succ]
        constructor
        · rintro (h | ⟨a, ha, hk⟩)
          · exact absurd h (by omega)
          · have h2 := (ih a).1 ha
            have ha2 : a = k := by omega
            subst ha2
            exact ⟨by omega, h2.2⟩
        · rintro ⟨h1, h2⟩
          exact Or.inr ⟨k, (ih k).2 ⟨by omega, h2⟩, rfl⟩

lemma spec_forward_positions_sorted (roles : List ℕ) :
    List.Pairwise (· < ·) (spec_forward_positions roles) := by
  induction roles with
  | nil => simp [spec_forward_positions]
  | cons r rs ih =>
    by_cases hr : r = InputRole.no_forward
    · rw [spec_forward_positions_drop r rs hr]
      exact (List.pairwise_map).2 (ih.imp fun h => by omega)
    · rw [spec_forward_positions_keep r rs hr]
      refine List.Pairwise.cons ?_ ((List.pairwise_map).2 (ih.imp fun h => by omega))
      intro a ha
      rcases List.mem_map.1 ha with ⟨b, hb, rfl⟩
      omega

lemma spec_forward_positions_length (roles : List ℕ) :
    (spec_forward_positions roles).length
      = roles.countP fun r => decide (r ≠ InputRole.no_forward) := by
  induction roles with
  | nil => simp [spec_forward_positions]
  | cons r rs ih =>
    by_cases hr : r = InputRole.no_forward
    · simp [spec_forward_positions, hr, List.countP_cons, ih]
    · simp [spec_forward_positions, hr, List.countP_cons, ih]

lemma foldl_count_aux (step : Option ℕ → List BT → Option ℕ)
    (hstep : ∀ a b, step a b = some (a.getD 0 + 1)) :
    ∀ (dl : List (List BT)) (k : ℕ), dl.foldl step (some k) = some (k + dl.length) := by
  intro dl
  induction dl with
  | nil => intro k; simp
  | cons b rest ih =>
    intro k
    simp only [List.foldl_cons, hstep, Option.getD_some]
    rw [ih (k + 1)]
    simp [Nat.add_comm, Nat.add_assoc, Nat.add_left_comm]

lemma foldl_record_aux {Out : Type} (f : List BT → Out × List BT)
    (step : Option (List (Out × List BT)) → List BT → Option (List (Out × List BT)))
    (hstep : ∀ a b, step a b = some (a.getD [] ++ [f b])) :
    ∀ (dl : List (List BT)) (t : List (Out × List BT)),
      dl.foldl step (some t) = some (t ++ dl.map f) := by
  intro dl
  induction dl with
  | nil => intro t; simp
  | cons b rest ih =>
    intro t
    simp only [List.foldl_cons, hstep, Option.getD_some]
    rw [ih (t ++ [f b])]
    simp

lemma foldl_count_start {Out M : Type} (F : List BT → Out) (pattern : List ℚ)
    (dl : List (List BT)) (roles : List ℕ) (bs : List Baseline) (fm : List Mask)
    (pp : ℤ) (sp : Bool) (fmap : ℕ → List ℕ) :
    forward_with_dataloader F pattern dl roles bs fm count_calls
        (none : Option (Option ℕ → M)) pp sp fmap
      = Sum.inl (if dl.isEmpty then none else some dl.length) := by
  cases dl with
  | nil => rfl
  | cons b rest =>
    exact congrArg Sum.inl
      ((foldl_count_aux _ (fun a b => rfl) rest 1).trans
        (congrArg some (Nat.add_comm 1 rest.length)))

lemma foldl_concat_aux (out : List BT → BT)
    (step : Option BT → List BT → Option BT)
    (hstep : ∀ a b, step (some a) b = some (a ++ out b)) :
    ∀ (dl : List (List BT)) (acc : BT),
      dl.foldl step (some acc) = some (acc ++ (dl.map out).flatten) := by
  intro dl
  induction dl with
  | nil => intro acc; simp
  | cons b rest ih =>
    intro acc
    simp only [List.foldl_cons, hstep]
    rw [ih (acc ++ out b)]
    simp

lemma foldl_record_start {Out M : Type} (F : List BT → Out) (pattern : List ℚ)
    (dl : List (List BT)) (roles : List ℕ) (bs : List Baseline) (fm : List Mask)
    (pp : ℤ) (sp : Bool) (fmap : ℕ → List ℕ) :
    forward_with_dataloader F pattern dl roles bs fm record_calls
        (none : Option (Option (List (Out × List BT)) → M)) pp sp fmap
      = Sum.inl (if dl.isEmpty then none
          else some (dl.map fun b =>
            (F (forward_inputs roles (perturb_batch pattern fmap roles bs fm b)),
              perturb_batch pattern fmap roles bs fm b))) := by
  cases dl with
  | nil => rfl
  | cons b rest =>
    exact congrArg Sum.inl
      (foldl_record_aux
        (fun b => (F (forward_inputs roles (perturb_batch pattern fmap roles bs fm b)),
          perturb_batch pattern fmap roles bs fm b))
        _ (fun a b => rfl) rest _)

lemma foldl_concat_start {M : Type} (G : List BT → BT) (pattern : List ℚ)
    (dl : List (List BT)) (roles : List ℕ) (bs : List Baseline) (fm : List Mask)
    (pp : ℤ) (sp : Bool) (fmap : ℕ → List ℕ) :
    forward_with_dataloader G pattern dl roles bs fm concat_tensors
        (none : Option (Option BT → M)) pp sp fmap
      = Sum.inl (if dl.isEmpty then none
          else some ((dl.map fun b =>
            G (forward_inputs roles (perturb_batch pattern fmap roles bs fm b))).flatten)) := by
  cases dl with
  | nil => rfl
  | cons b rest =>
    exact congrArg Sum.inl
      (foldl_concat_aux
        (fun b => G (forward_inputs roles (perturb_batch pattern fmap roles bs fm b)))
        _ (fun a b => rfl) rest _)

/-- The body of the perturbation loop of `_forward_with_dataloader` for one
tuple position whose attributable count is `c`. -/
def perturb_one (pmask : List (Option Row)) (bs : List Baseline) (c : ℕ) (role : ℕ)
    (inp : BT) : BT :=
  if role ≠ InputRole.need_attr then inp
  else
    match pmask.getD c none with
    | none => inp
    | some pm => inp.map fun row => perturb_row row pm (bs.getD c (Sum.inl 0))

lemma perturb_inputs_getD (pmask : List (Option Row)) (bs : List Baseline) :
    ∀ (inputs : List BT) (roles : List ℕ) (c p : ℕ), p < inputs.length → p < roles.length →
      (perturb_inputs pmask bs inputs roles c).getD p []
        = perturb_one pmask bs
            (c + (roles.take p).countP fun r => decide (r = InputRole.need_attr))
            (roles.getD p 0) (inputs.getD p []) := by
  intro inputs
  induction inputs with
  | nil => intro roles c p h1 h2; simp at h1
  | cons i is ih =>
    intro roles c p h1 h2
    cases roles with
    | nil => simp at h2
    | cons r rs =>
      cases p with
      | zero =>
        simp only [List.take_zero, List.countP_nil, Nat.add_zero, List.getD_cons_zero]
        by_cases hr : r = InputRole.need_attr
        · cases hpm : pmask[c]?.getD none with
          | none => simp [perturb_inputs, perturb_one, hr, List.getD_eq_getElem?_getD, hpm]
          | some pm => simp [perturb_inputs, perturb_one, hr, List.getD_eq_getElem?_getD, hpm]
        · simp [perturb_inputs, perturb_one, hr]
      | succ p =>
        have h1' : p < is.length := by simpa using h1
        have h2' : p < rs.length := by simpa using h2
        simp only [List.take_succ_cons, List.countP_cons, List.getD_cons_succ]
        by_cases hr : r = InputRole.need_attr
        · have hx : (if (fun r => decide (r = InputRole.need_attr)) r then 1 else 0) = 1 := by
            simp [hr]
          rw [hx]
          cases hpm : pmask[c]?.getD none with
          | none =>
            rw [show perturb_inputs pmask bs (i :: is) (r :: rs) c
                = i :: perturb_inputs pmask bs is rs (c + 1) by
              simp [perturb_inputs, hr, List.getD_eq_getElem?_getD, hpm]]
            rw [List.getD_cons_succ, ih rs (c + 1) p h1' h2']
            have harith : c + 1 + (rs.take p).countP (fun r => decide (r = InputRole.need_attr))
                = c + ((rs.take p).countP (fun r => decide (r = InputRole.need_attr)) + 1) := by
              omega
            rw [harith]
          | some pm =>
            rw [show perturb_inputs pmask bs (i :: is) (r :: rs) c
                = (i.map fun row => perturb_row row pm (bs.getD c (Sum.inl 0)))
                    :: perturb_inputs pmask bs is rs (c + 1) by
              simp [perturb_inputs, hr, List.getD_eq_getElem?_getD, hpm]]
            rw [List.getD_cons_succ, ih rs (c + 1) p h1' h2']
            have harith : c + 1 + (rs.take p).countP (fun r => decide (r = InputRole.need_attr))
                = c + ((rs.take p).countP (fun r => decide (r = InputRole.need_attr)) + 1) := by
              omega
            rw [harith]
        · have hx : (if (fun r => decide (r = InputRole.need_attr)) r then 1 else 0) = 0 := by
            simp [hr]
          rw [hx]
          rw [show perturb_inputs pmask bs (i :: is) (r :: rs) c
              = i :: perturb_inputs pmask bs is rs c by simp [perturb_inputs, hr]]
          rw [List.getD_cons_succ, ih rs c p h1' h2', Nat.add_zero]

lemma perturbation_mask_getD (pattern : List ℚ) (fmap : ℕ → List ℕ) (fm : List Mask)
    (c : ℕ) (hc : c < fm.length) :
    (perturbation_mask pattern fmap fm).getD c none
      = if perturbation_mask_indices pattern fmap c then
          some (gather_pattern pattern (fm.getD c [])) else none := by
  unfold perturbation_mask
  rw [List.getD_eq_getElem?_getD, List.getElem?_map]
  rw [show fm.enum[c]? = some (c, fm[c]) by
    rw [List.getElem?_enum, List.getElem?_eq_getElem hc]; rfl]
  rw [List.getD_eq_getElem fm [] hc]
  rfl

lemma perturbation_mask_indices_iff (pattern : List ℚ) (fmap : ℕ → List ℕ) (fm : List Mask)
    (hmap : ∀ j i, i ∈ fmap j ↔ i < fm.length ∧ j ∈ fm.getD i [])
    (hrange : ∀ m ∈ fm, ∀ v ∈ m, v < pattern.length)
    (c : ℕ) (hc : c < fm.length) :
    perturbation_mask_indices pattern fmap c = true
      ↔ ∃ v ∈ fm.getD c [], pattern.getD v 1 = 0 := by
  unfold perturbation_mask_indices
  rw [List.any_eq_true]
  constructor
  · rintro ⟨j, hj, hcond⟩
    rw [Bool.and_eq_true, decide_eq_true_eq, decide_eq_true_eq] at hcond
    exact ⟨j, ((hmap j c).1 hcond.2).2, hcond.1⟩
  · rintro ⟨v, hv, hv0⟩
    have hmem : fm.getD c [] ∈ fm := by
      rw [List.getD_eq_getElem fm [] hc]
      exact List.getElem_mem hc
    have hvlt : v < pattern.length := hrange _ hmem v hv
    refine ⟨v, List.mem_range.2 hvlt, ?_⟩
    rw [Bool.and_eq_true, decide_eq_true_eq, decide_eq_true_eq]
    exact ⟨hv0, (hmap v c).2 ⟨hc, hv⟩⟩

lemma countP_take_lt (roles : List ℕ) (p : ℕ) (hp : p < roles.length)
    (h0 : roles.getD p 0 = InputRole.need_attr) :
    (roles.take p).countP (fun r => decide (r = InputRole.need_attr))
      < roles.countP fun r => decide (r = InputRole.need_attr) := by
  conv_rhs => rw [← List.take_append_drop p roles]
  rw [List.countP_append]
  have hdrop : roles.drop p = roles.getD p 0 :: roles.drop (p + 1) := by
    rw [List.getD_eq_getElem roles 0 hp]
    exact List.drop_eq_getElem_cons hp
  rw [hdrop, List.countP_cons]
  have hone : (if decide (roles.getD p 0 = InputRole.need_attr) = true then 1 else 0) = 1 := by
    rw [h0]
    simp
  omega

/-
Lemmas about the feature-index reverse map built by `attribute`.
-/

lemma build_fmap_aux :
    ∀ (ps : List (ℕ × Tensor ℕ)) (m0 : ℕ → List ℕ) (j : ℕ),
      (ps.foldl (fun m p => fun j => if j ∈ unique_values p.2 then m j ++ [p.1] else m j) m0) j
        = m0 j ++ ((ps.filter fun p => decide (j ∈ unique_values p.2)).map Prod.fst) := by
  intro ps
  induction ps with
  | nil => intro m0 j; simp
  | cons p ps ih =>
    intro m0 j
    simp only [List.foldl_cons, List.filter_cons]
    by_cases hj : j ∈ unique_values p.2
    · rw [ih]
      simp [hj]
    · rw [ih]
      simp [hj]

lemma build_fmap_mem (masks : List (Tensor ℕ)) (j i : ℕ) :
    i ∈ build_feature_idx_to_mask_idx masks j
      ↔ i < masks.length ∧ j ∈ tvalues (masks.getD i ⟨[], fun _ => 0⟩) := by
  unfold build_feature_idx_to_mask_idx
  rw [build_fmap_aux]
  simp only [List.nil_append]
  constructor
  · intro h
    rcases List.mem_map.1 h with ⟨p, hp, rfl⟩
    rcases List.mem_filter.1 hp with ⟨hpe, hq⟩
    have hg : masks[p.1]? = some p.2 := List.mem_enum_iff_getElem?.1 hpe
    have hlt : p.1 < masks.length := List.fst_lt_of_mem_enum hpe
    refine ⟨hlt, ?_⟩
    have hgd : masks.getD p.1 ⟨[], fun _ => 0⟩ = p.2 := by
      rw [List.getD_eq_getElem?_getD, hg]
      rfl
    rw [hgd]
    have hq2 : j ∈ unique_values p.2 := by simpa using hq
    exact List.mem_dedup.1 hq2
  · rintro ⟨hlt, hjv⟩
    apply List.mem_map.2
    refine ⟨(i, masks[i]), List.mem_filter.2 ⟨?_, ?_⟩, rfl⟩
    · exact List.mem_enum_iff_getElem?.2 (List.getElem?_eq_getElem hlt)
    · simp only [decide_eq_true_eq]
      apply List.mem_dedup.2
      have hgd : masks.getD i ⟨[], fun _ => 0⟩ = masks[i] := List.getD_eq_getElem _ _ hlt
      rw [hgd] at hjv
      exact hjv

lemma build_fmap_sorted (masks : List (Tensor ℕ)) (j : ℕ) :
    List.Pairwise (· < ·) (build_feature_idx_to_mask_idx masks j) := by
  unfold build_feature_idx_to_mask_idx
  rw [build_fmap_aux]
  simp only [List.nil_append]
  have hsub : List.Sublist
      ((masks.enum.filter fun p => decide (j ∈ unique_values p.2)).map Prod.fst)
      (masks.enum.map Prod.fst) :=
    (List.filter_sublist _).map _
  refine List.Pairwise.sublist hsub ?_
  rw [List.enum_map_fst]
  exact List.pairwise_lt_range _

/-
Lemmas about the maximum feature index.
-/

lemma le_foldr_max (l : List ℕ) : ∀ x ∈ l, x ≤ l.foldr max 0 := by
  induction l with
  | nil => intro x hx; simp at hx
  | cons a l ih =>
    intro x hx
    rcases List.mem_cons.1 hx with rfl | hx2
    · exact le_max_left _ _
    · exact le_trans (ih x hx2) (le_max_right _ _)

lemma foldr_max_mem (l : List ℕ) (h : l ≠ []) : l.foldr max 0 ∈ l := by
  induction l with
  | nil => exact absurd rfl h
  | cons a l ih =>
    cases l with
    | nil => simp
    | cons b t =>
      have hfold : (a :: b :: t).foldr max 0 = max a ((b :: t).foldr max 0) := rfl
      rcases max_choice a ((b :: t).foldr max 0) with hc | hc
      · rw [hfold, hc]
        exact List.mem_cons_self _ _
      · rw [hfold, hc]
        exact List.mem_cons_of_mem _ (ih (by simp))

lemma get_max_is_ub (masks : List (Tensor ℕ)) :
    ∀ m ∈ masks, ∀ v ∈ tvalues m, v ≤ get_max_feature_index masks := by
  intro m hm v hv
  refine le_trans (le_foldr_max (tvalues m) v hv) ?_
  exact le_foldr_max _ _ (List.mem_map_of_mem _ hm)

lemma get_max_attained (masks : List (Tensor ℕ))
    (h : ∃ m ∈ masks, tvalues m ≠ []) :
    ∃ m ∈ masks, get_max_feature_index masks ∈ tvalues m := by
  by_cases hz : get_max_feature_index masks = 0
  · rcases h with ⟨m, hm, hne⟩
    refine ⟨m, hm, ?_⟩
    have h1 : (tvalues m).foldr max 0 ∈ tvalues m := foldr_max_mem _ hne
    have h2 : (tvalues m).foldr max 0 ≤ get_max_feature_index masks :=
      le_foldr_max _ _ (List.mem_map_of_mem _ hm)
    rw [hz, Nat.le_zero] at h2
    rw [hz, ← h2]
    exact h1
  · have hmem : get_max_feature_index masks
        ∈ masks.map fun m => (tvalues m).foldr max 0 := by
      apply foldr_max_mem
      intro hnil
      apply hz
      unfold get_max_feature_index
      rw [hnil]
      rfl
    rcases List.mem_map.1 hmem with ⟨m, hm, heq⟩
    refine ⟨m, hm, ?_⟩
    rw [← heq]
    apply foldr_max_mem
    intro hnil
    apply hz
    rw [← heq, hnil]
    rfl

/-
Reduction lemmas for the embedded `attribute`.
-/

lemma attribute_with_roles_success {R T : Type} (ablate : Tensor ℚ → BBArgs R T → Tensor ℚ)
    (dataloader : List DLItem) (inputs : List (Tensor ℚ)) (istup : Bool) (roles : List ℕ)
    (baselines : Option (List ABaseline)) (feature_mask : Option (List (Tensor ℕ)))
    (reduce : Option R) (to_metric : Option T) (pp : ℤ) (sp : Bool) (ris : Bool)
    (hbl : (attr_inputs_of inputs roles).length
        = (format_baseline baselines (attr_inputs_of inputs roles)).length)
    (hbok : (format_baseline baselines (attr_inputs_of inputs roles)).all baselineOk = true)
    (hml : (attr_inputs_of inputs roles).length
        = (format_feature_mask feature_mask (attr_inputs_of inputs roles)).length)
    (hmok : (format_feature_mask feature_mask (attr_inputs_of inputs roles)).all maskOk
        = true) :
    attribute_with_roles ablate dataloader inputs istup roles baselines feature_mask
        reduce to_metric pp sp ris
      = (let fmask := format_feature_mask feature_mask (attr_inputs_of inputs roles)
         let ua := ablate (ones2 1 (get_max_feature_index fmask + 1))
           ⟨dataloader, roles, format_baseline baselines (attr_inputs_of inputs roles),
             fmask,
             (match reduce with
              | some r => ReduceArg.user r
              | none => ReduceArg.defaultConcat), to_metric, pp, sp,
             build_feature_idx_to_mask_idx fmask⟩
         if ris then
           Except.ok (format_output istup
             (convert_output_shape ua (attr_inputs_of inputs roles) fmask))
         else Except.ok (AttrResult.flat ua)) := by
  simp only [attribute_with_roles]
  rw [if_pos hbl, if_pos hbok, if_pos hml, if_pos hmok]

lemma attribute_with_roles_err_baseline_len {R T : Type}
    (ablate : Tensor ℚ → BBArgs R T → Tensor ℚ)
    (dataloader : List DLItem) (inputs : List (Tensor ℚ)) (istup : Bool) (roles : List ℕ)
    (baselines : Option (List ABaseline)) (feature_mask : Option (List (Tensor ℕ)))
    (reduce : Option R) (to_metric : Option T) (pp : ℤ) (sp : Bool) (ris : Bool)
    (hbl : ¬ (attr_inputs_of inputs roles).length
        = (format_baseline baselines (attr_inputs_of inputs roles)).length) :
    attribute_with_roles ablate dataloader inputs istup roles baselines feature_mask
        reduce to_metric pp sp ris
      = Except.error "Baselines must have the same size as the return of the dataloader that need attribution" := by
  simp only [attribute_with_roles]
  rw [if_neg hbl]

lemma attribute_with_roles_err_baseline_dim {R T : Type}
    (ablate : Tensor ℚ → BBArgs R T → Tensor ℚ)
    (dataloader : List DLItem) (inputs : List (Tensor ℚ)) (istup : Bool) (roles : List ℕ)
    (baselines : Option (List ABaseline)) (feature_mask : Option (List (Tensor ℕ)))
    (reduce : Option R) (to_metric : Option T) (pp : ℤ) (sp : Bool) (ris : Bool)
    (hbl : (attr_inputs_of inputs roles).length
        = (format_baseline baselines (attr_inputs_of inputs roles)).length)
    (hbok : ¬ (format_baseline baselines (attr_inputs_of inputs roles)).all baselineOk
        = true) :
    attribute_with_roles ablate dataloader inputs istup roles baselines feature_mask
        reduce to_metric pp sp ris
      = Except.error "If the baseline is a tensor, its 1st dim of baseline must be 1" := by
  simp only [attribute_with_roles]
  rw [if_pos hbl, if_neg hbok]

lemma attribute_with_roles_err_mask_len {R T : Type}
    (ablate : Tensor ℚ → BBArgs R T → Tensor ℚ)
    (dataloader : List DLItem) (inputs : List (Tensor ℚ)) (istup : Bool) (roles : List ℕ)
    (baselines : Option (List ABaseline)) (feature_mask : Option (List (Tensor ℕ)))
    (reduce : Option R) (to_metric : Option T) (pp : ℤ) (sp : Bool) (ris : Bool)
    (hbl : (attr_inputs_of inputs roles).length
        = (format_baseline baselines (attr_inputs_of inputs roles)).length)
    (hbok : (format_baseline baselines (attr_inputs_of inputs roles)).all baselineOk = true)
    (hml : ¬ (attr_inputs_of inputs roles).length
        = (format_feature_mask feature_mask (attr_inputs_of inputs roles)).length) :
    attribute_with_roles ablate dataloader inputs istup roles baselines feature_mask
        reduce to_metric pp sp ris
      = Except.error "Feature mask must have the same size as the return of the dataloader that need attribution" := by
  simp only [attribute_with_roles]
  rw [if_pos hbl, if_pos hbok, if_neg hml]

lemma attribute_with_roles_err_mask_dim {R T : Type}
    (ablate : Tensor ℚ → BBArgs R T → Tensor ℚ)
    (dataloader : List DLItem) (inputs : List (Tensor ℚ)) (istup : Bool) (roles : List ℕ)
    (baselines : Option (List ABaseline)) (feature_mask : Option (List (Tensor ℕ)))
    (reduce : Option R) (to_metric : Option T) (pp : ℤ) (sp : Bool) (ris : Bool)
    (hbl : (attr_inputs_of inputs roles).length
        = (format_baseline baselines (attr_inputs_of inputs roles)).length)
    (hbok : (format_baseline baselines (attr_inputs_of inputs roles)).all baselineOk = true)
    (hml : (attr_inputs_of inputs roles).length
        = (format_feature_mask feature_mask (attr_inputs_of inputs roles)).length)
    (hmok : ¬ (format_feature_mask feature_mask (attr_inputs_of inputs roles)).all maskOk
        = true) :
    attribute_with_roles ablate dataloader inputs istup roles baselines feature_mask
        reduce to_metric pp sp ris
      = Except.error "The 1st dim of feature_mask must be 1" := by
  simp only [attribute_with_roles]
  rw [if_pos hbl, if_pos hbok, if_pos hml, if_neg hmok]

lemma attribute_dispatch_some {R T : Type} (ablate : Tensor ℚ → BBArgs R T → Tensor ℚ)
    (inps : List (Tensor ℚ)) (rest : List DLItem) (rs : List ℕ)
    (baselines : Option (List ABaseline)) (feature_mask : Option (List (Tensor ℕ)))
    (reduce : Option R) (to_metric : Option T) (pp : ℤ) (sp : Bool) (ris : Bool)
    (hne : ¬ rs = []) (hlen : rs.length = inps.length)
    (hattr : ∃ r ∈ rs, r = InputRole.need_attr) :
    dataloader_attribute ablate (DLItem.tup inps :: rest) (some rs) baselines feature_mask
        reduce to_metric pp sp ris
      = attribute_with_roles ablate (DLItem.tup inps :: rest) inps true rs baselines
          feature_mask reduce to_metric pp sp ris := by
  simp only [dataloader_attribute, List.head?_cons]
  rw [if_neg hne, if_pos hlen, if_pos hattr]

lemma attribute_dispatch_err_roles_len {R T : Type}
    (ablate : Tensor ℚ → BBArgs R T → Tensor ℚ)
    (inps : List (Tensor ℚ)) (rest : List DLItem) (rs : List ℕ)
    (baselines : Option (List ABaseline)) (feature_mask : Option (List (Tensor ℕ)))
    (reduce : Option R) (to_metric : Option T) (pp : ℤ) (sp : Bool) (ris : Bool)
    (hne : ¬ rs = []) (hlen : ¬ rs.length = inps.length) :
    dataloader_attribute ablate (DLItem.tup inps :: rest) (some rs) baselines feature_mask
        reduce to_metric pp sp ris
      = Except.error "input_roles must have the same size as the return of the dataloader" := by
  simp only [dataloader_attribute, List.head?_cons]
  rw [if_neg hne, if_neg hlen]

lemma attribute_dispatch_err_roles_attr {R T : Type}
    (ablate : Tensor ℚ → BBArgs R T → Tensor ℚ)
    (inps : List (Tensor ℚ)) (rest : List DLItem) (rs : List ℕ)
    (baselines : Option (List ABaseline)) (feature_mask : Option (List (Tensor ℕ)))
    (reduce : Option R) (to_metric : Option T) (pp : ℤ) (sp : Bool) (ris : Bool)
    (hne : ¬ rs = []) (hlen : rs.length = inps.length)
    (hattr : ¬ ∃ r ∈ rs, r = InputRole.need_attr) :
    dataloader_attribute ablate (DLItem.tup inps :: rest) (some rs) baselines feature_mask
        reduce to_metric pp sp ris
      = Except.error "input_roles must contain at least one element need attribution" := by
  simp only [dataloader_attribute, List.head?_cons]
  rw [if_neg hne, if_pos hlen, if_neg hattr]

/-
Index arithmetic for the tensor model.
-/

lemma validIdx_prod_pos {idx s : List ℕ} (h : ValidIdx idx s) : 0 < s.prod := by
  induction h with
  | nil => simp
  | cons h1 h2 ih =>
    rw [List.prod_cons]
    exact Nat.mul_pos (Nat.lt_of_le_of_lt (Nat.zero_le _) h1) ih

lemma flattenIdx_lt {idx s : List ℕ} (h : ValidIdx idx s) : flattenIdx s idx < s.prod := by
  induction h with
  | nil => simp [flattenIdx]
  | cons h1 h2 ih =>
    rename_i a b l1 l2
    simp only [flattenIdx, List.prod_cons]
    have hp : 0 < l2.prod := validIdx_prod_pos h2
    calc a * l2.prod + flattenIdx l2 l1 < a * l2.prod + l2.prod := by omega
    _ = (a + 1) * l2.prod := by ring
    _ ≤ b * l2.prod := Nat.mul_le_mul_right _ (by omega)

lemma unflatten_flatten {idx s : List ℕ} (h : ValidIdx idx s) :
    unflattenIdx s (flattenIdx s idx) = idx := by
  induction h with
  | nil => rfl
  | cons h1 h2 ih =>
    rename_i a b l1 l2
    simp only [flattenIdx, unflattenIdx]
    have hp : 0 < l2.prod := validIdx_prod_pos h2
    have hlt : flattenIdx l2 l1 < l2.prod := flattenIdx_lt h2
    have hcomm : a * l2.prod + flattenIdx l2 l1 = l2.prod * a + flattenIdx l2 l1 := by ring
    rw [hcomm, Nat.mul_add_div hp, Nat.div_eq_of_lt hlt, Nat.add_zero, Nat.mul_add_mod,
      Nat.mod_eq_of_lt hlt, ih]

lemma flattenIdx_append :
    ∀ (s i t j : List ℕ), i.length = s.length → j.length = t.length →
      flattenIdx (s ++ t) (i ++ j) = flattenIdx s i * t.prod + flattenIdx t j := by
  intro s
  induction s with
  | nil =>
    intro i t j hi hj
    cases i with
    | nil => simp [flattenIdx]
    | cons a as => simp at hi
  | cons d ds ih =>
    intro i t j hi hj
    cases i with
    | nil => simp at hi
    | cons a as =>
      simp only [List.cons_append, flattenIdx, List.append_eq]
      rw [ih as t j (by simpa using hi) hj, List.prod_append]
      ring

lemma flattenIdx_replicate (k : ℕ) :
    flattenIdx (List.replicate k 1) (List.replicate k 0) = 0 := by
  induction k with
  | zero => rfl
  | succ k ih => simp [List.replicate_succ, flattenIdx, ih]

lemma zipWith_one_valid {f2 fd : List ℕ} (h : ValidIdx f2 fd) :
    List.zipWith (fun d i => if d = 1 then 0 else i) fd f2 = f2 := by
  induction h with
  | nil => rfl
  | cons h1 h2 ih =>
    rename_i a b l1 l2
    simp only [List.zipWith_cons_cons, ih]
    congr 1
    by_cases hb : b = 1
    · subst hb
      have ha : a = 0 := by omega
      subst ha
      simp
    · simp [hb]

lemma zipWith_replicate_one :
    ∀ (k : ℕ) (l : List ℕ), l.length = k →
      List.zipWith (fun d i => if d = 1 then 0 else i) (List.replicate k 1) l
        = List.replicate k 0 := by
  intro k
  induction k with
  | zero =>
    intro l h
    cases l with
    | nil => rfl
    | cons a l => simp at h
  | succ k ih =>
    intro l h
    cases l with
    | nil => simp at h
    | cons a l =>
      simp only [List.replicate_succ, List.zipWith_cons_cons]
      rw [ih l (by simpa using h)]
      simp

lemma drop_pred_singleton (o : List ℕ) (h : o ≠ []) :
    ∃ x, o.drop (o.length - 1) = [x] := by
  have hlen : (o.drop (o.length - 1)).length = 1 := by
    rw [List.length_drop]
    cases o with
    | nil => exact absurd rfl h
    | cons a l => simp
  exact List.length_eq_one.1 hlen

lemma expand_mask_val {α : Type} (mask : Tensor α) (od fd o f2 : List ℕ)
    (hm : mask.shape = 1 :: fd) (hod : od ≠ [])
    (ho : ValidIdx o od) (hf : ValidIdx f2 fd) :
    (mask.expand (od ++ fd)).val (o ++ f2) = mask.val (0 :: f2) := by
  have hol : o.length = od.length := ho.length_eq
  have hfl : f2.length = fd.length := hf.length_eq
  have hop : o ≠ [] := by
    intro hnil
    subst hnil
    cases od with
    | nil => exact hod rfl
    | cons d ds => simp at hol
  simp only [Tensor.expand, hm]
  have hlen1 : (od ++ fd).length - (1 :: fd).length = o.length - 1 := by
    simp only [List.length_append, List.length_cons]
    omega
  rw [hlen1]
  have hdrop : (o ++ f2).drop (o.length - 1) = o.drop (o.length - 1) ++ f2 :=
    List.drop_append_of_le_length (by omega)
  rw [hdrop]
  obtain ⟨x, hx⟩ := drop_pred_singleton o hop
  rw [hx]
  congr 1
  rw [List.singleton_append, List.zipWith_cons_cons, zipWith_one_valid hf]
  simp

lemma expanded_unique_val (u : Tensor ℚ) (od : List ℕ) (nf : ℕ) (ex : List ℕ)
    (o e : List ℕ) (v : ℕ)
    (hu : u.shape = od ++ [nf])
    (ho : ValidIdx o od) (he : e.length = ex.length) (hv : v < nf) :
    (((u.reshape (od ++ List.replicate ex.length 1 ++ [nf])).expand
        (od ++ ex ++ [nf])).val (o ++ e ++ [v]))
      = u.val (o ++ [v]) := by
  have hol : o.length = od.length := ho.length_eq
  simp only [Tensor.expand, Tensor.reshape]
  have hlen0 : (od ++ ex ++ [nf]).length
      - (od ++ List.replicate ex.length 1 ++ [nf]).length = 0 := by
    simp [List.length_append]
  rw [hlen0, List.drop_zero]
  have hzip : List.zipWith (fun d i => if d = 1 then 0 else i)
      (od ++ List.replicate ex.length 1 ++ [nf]) (o ++ e ++ [v])
      = o ++ List.replicate ex.length 0 ++ [v] := by
    rw [List.zipWith_append _ _ _ _ _ (by simp [hol, he]),
      List.zipWith_append _ _ _ _ _ (by simp [hol]),
      zipWith_one_valid ho, zipWith_replicate_one ex.length e he,
      List.zipWith_cons_cons]
    by_cases hnf : nf = 1
    · have hv0 : v = 0 := by omega
      subst hnf hv0
      simp
    · simp [hnf]
  rw [hzip]
  have hflat : flattenIdx (od ++ List.replicate ex.length 1 ++ [nf])
      (o ++ List.replicate ex.length 0 ++ [v])
      = flattenIdx (od ++ [nf]) (o ++ [v]) := by
    rw [flattenIdx_append (od ++ List.replicate ex.length 1) (o ++ List.replicate ex.length 0)
        [nf] [v] (by simp [hol]) (by simp),
      flattenIdx_append od o (List.replicate ex.length 1) (List.replicate ex.length 0) hol
        (by simp),
      flattenIdx_append od o [nf] [v] hol (by simp),
      flattenIdx_replicate]
    simp
  rw [hflat, hu]
  have hvalid : ValidIdx (o ++ [v]) (od ++ [nf]) :=
    List.rel_append ho (List.Forall₂.cons hv List.Forall₂.nil)
  rw [unflatten_flatten hvalid]

/-
The claim theorems.
-/

/-- Claim C4: output reconstruction produces, for an attributable input with
per-batch shape `(b, *fd)` and mask of shape `(1, *fd)`, a tensor of shape
`(*od, *fd)` whose value at every valid position equals the unique
attribution tensor's entry at the canonical feature index stored at that
position in the mask. -/
theorem claim4_output_reconstruction (u : Tensor ℚ) (ai : List (Tensor ℚ))
    (fm : List (Tensor ℕ)) (k : ℕ) (inp : Tensor ℚ) (mask : Tensor ℕ)
    (od fd : List ℕ) (nf b : ℕ)
    (hk : (ai.zip fm)[k]? = some (inp, mask))
    (hu : u.shape = od ++ [nf]) (hod : od ≠ []) (hfd : fd ≠ [])
    (hi : inp.shape = b :: fd) (hm : mask.shape = 1 :: fd)
    (hmv : ∀ f2, ValidIdx f2 fd → mask.val (0 :: f2) < nf) :
    (convert_output_shape u ai fm)[k]? = some (convert_one u (inp, mask))
    ∧ (convert_one u (inp, mask)).shape = od ++ fd
    ∧ ∀ o f2, ValidIdx o od → ValidIdx f2 fd →
        (convert_one u (inp, mask)).val (o ++ f2)
          = u.val (o ++ [mask.val (0 :: f2)]) := by
  have hodl : u.shape.dropLast = od := by rw [hu]; exact List.dropLast_concat
  have hnfl : u.shape.getLastD 0 = nf := by rw [hu]; exact List.getLastD_concat _ _ _
  have hshape : u.shape.dropLast ++ inp.shape.drop 1 = od ++ fd := by
    rw [hodl, hi]
    simp
  refine ⟨?_, ?_, ?_⟩
  · unfold convert_output_shape
    rw [List.getElem?_map, hk]
    rfl
  · simp only [convert_one, Tensor.gatherLast, Tensor.expand]
    exact hshape
  · intro o f2 ho hf
    by_cases hgt : 2 < inp.shape.length
    · have hf2ne : f2 ≠ [] := by
        intro hnil
        subst hnil
        cases fd with
        | nil => exact hfd rfl
        | cons d ds => simpa using hf.length_eq
      obtain ⟨e, x, hex⟩ : ∃ e x, f2 = e ++ [x] :=
        ⟨f2.dropLast, f2.getLast hf2ne, (List.dropLast_append_getLast hf2ne).symm⟩
      subst hex
      simp only [convert_one, if_pos hgt, Tensor.gatherLast]
      have hefi : (mask.expand (u.shape.dropLast ++ inp.shape.drop 1)).val (o ++ (e ++ [x]))
          = mask.val (0 :: (e ++ [x])) := by
        rw [hshape]
        exact expand_mask_val mask od fd o (e ++ [x]) hm hod ho hf
      rw [hefi]
      have hdl : (o ++ (e ++ [x])).dropLast = o ++ e := by
        rw [← List.append_assoc]
        exact List.dropLast_concat
      rw [hdl]
      have hex2 : (inp.shape.drop 1).dropLast = fd.dropLast := by
        rw [hi]
        simp
      rw [hodl, hnfl, hex2]
      have he : e.length = fd.dropLast.length := by
        have hlf := hf.length_eq
        simp only [List.length_append, List.length_singleton] at hlf
        simp only [List.length_dropLast]
        omega
      exact expanded_unique_val u od nf fd.dropLast o e
        (mask.val (0 :: (e ++ [x]))) hu ho he (hmv (e ++ [x]) hf)
    · have h1le : 1 ≤ fd.length := by
        cases fd with
        | nil => exact absurd rfl hfd
        | cons d ds => simp
      have hfd1 : fd.length = 1 := by
        rw [hi] at hgt
        simp only [List.length_cons] at hgt
        omega
      obtain ⟨x, hx⟩ := List.length_eq_one.1 (hf.length_eq.trans hfd1)
      subst hx
      simp only [convert_one, if_neg hgt, Tensor.gatherLast]
      have hefi : (mask.expand (u.shape.dropLast ++ inp.shape.drop 1)).val (o ++ [x])
          = mask.val (0 :: [x]) := by
        rw [hshape]
        exact expand_mask_val mask od fd o [x] hm hod ho hf
      rw [hefi, List.dropLast_concat]

/-- Witness for C4: a (2, 3)-shaped unique attribution tensor reconstructed
through a mask with two feature dimensions. -/
theorem claim4_output_reconstruction_witness :
    (convert_one
        (⟨[2, 4], fun idx => (10 * idx.getD 0 0 + idx.getD 1 0 : ℚ)⟩ : Tensor ℚ)
        ((⟨[1, 2, 2], fun _ => 0⟩ : Tensor ℚ),
          (⟨[1, 2, 2], fun idx => 2 * idx.getD 1 0 + idx.getD 2 0⟩ : Tensor ℕ))).val
        ([1] ++ [0, 1])
      = (⟨[2, 4], fun idx => (10 * idx.getD 0 0 + idx.getD 1 0 : ℚ)⟩ : Tensor ℚ).val
          ([1] ++ [(⟨[1, 2, 2], fun idx => 2 * idx.getD 1 0 + idx.getD 2 0⟩ :
            Tensor ℕ).val (0 :: [0, 1])]) :=
  ((claim4_output_reconstruction
      (⟨[2, 4], fun idx => (10 * idx.getD 0 0 + idx.getD 1 0 : ℚ)⟩ : Tensor ℚ)
      [⟨[1, 2, 2], fun _ => 0⟩]
      [⟨[1, 2, 2], fun idx => 2 * idx.getD 1 0 + idx.getD 2 0⟩] 0
      ⟨[1, 2, 2], fun _ => 0⟩
      ⟨[1, 2, 2], fun idx => 2 * idx.getD 1 0 + idx.getD 2 0⟩
      [2] [2, 2] 4 1 rfl rfl (by simp) (by simp) rfl rfl
      (by
        intro f2 hf
        cases hf with
        | cons h1 htail =>
          rename_i y1 l1
          cases htail with
          | cons h2 hnil =>
            rename_i y2 l2
            cases hnil
            show 2 * y1 + y2 < 4
            omega)).2.2 [1] [0, 1]
    (List.Forall₂.cons (by omega) List.Forall₂.nil)
    (List.Forall₂.cons (by omega) (List.Forall₂.cons (by omega) List.Forall₂.nil)))

/-- Claim C1: for a perturbation pattern and one batch, every tuple position
with role `need_attr` whose feature mask contains a zeroed feature index is
replaced by `original * keepMask + baseline * (1 - keepMask)` with the
keep-mask obtained by gathering the pattern at the mask's values; every
attributable input whose mask contains no zeroed index and every
non-attributable position is passed through unchanged, and the perturbed
tuple is what the forward call and the reduce callback receive. -/
theorem claim1_batch_perturbation (pattern : List ℚ) (fmap : ℕ → List ℕ)
    (roles : List ℕ) (bs : List Baseline) (fm : List Mask) (inputs : List BT)
    (hmap : ∀ j i, i ∈ fmap j ↔ i < fm.length ∧ j ∈ fm.getD i [])
    (hrange : ∀ m ∈ fm, ∀ v ∈ m, v < pattern.length)
    (hlen : inputs.length = roles.length)
    (hcount : (roles.countP fun r => decide (r = InputRole.need_attr)) = fm.length) :
    (perturb_batch pattern fmap roles bs fm inputs).length = inputs.length
    ∧ (∀ p, p < inputs.length →
        (roles.getD p 0 ≠ InputRole.need_attr →
          (perturb_batch pattern fmap roles bs fm inputs).getD p [] = inputs.getD p [])
        ∧ (roles.getD p 0 = InputRole.need_attr →
            ((∀ v ∈ fm.getD ((roles.take p).countP fun r => decide (r = InputRole.need_attr)) [],
                pattern.getD v 1 ≠ 0) →
              (perturb_batch pattern fmap roles bs fm inputs).getD p [] = inputs.getD p [])
            ∧ ((∃ v ∈ fm.getD ((roles.take p).countP fun r => decide (r = InputRole.need_attr)) [],
                  pattern.getD v 1 = 0) →
              (perturb_batch pattern fmap roles bs fm inputs).getD p []
                = (inputs.getD p []).map fun row =>
                    perturb_row row
                      (gather_pattern pattern
                        (fm.getD ((roles.take p).countP fun r =>
                          decide (r = InputRole.need_attr)) []))
                      (bs.getD ((roles.take p).countP fun r =>
                        decide (r = InputRole.need_attr)) (Sum.inl 0)))))
    ∧ ∀ (Out : Type) (F : List BT → Out) (pp : ℤ) (sp : Bool),
        forward_with_dataloader F pattern [inputs] roles bs fm record_calls
            (none : Option (Option (List (Out × List BT)) → Unit)) pp sp fmap
          = Sum.inl (some
              [(F (forward_inputs roles (perturb_batch pattern fmap roles bs fm inputs)),
                perturb_batch pattern fmap roles bs fm inputs)]) := by
  refine ⟨?_, ?_, ?_⟩
  · rw [perturb_batch_length, hlen, Nat.min_self]
  · intro p hp
    have hp2 : p < roles.length := by rw [← hlen]; exact hp
    have key := perturb_inputs_getD (perturbation_mask pattern fmap fm) bs inputs roles 0 p hp hp2
    rw [Nat.zero_add] at key
    set cp := (roles.take p).countP fun r => decide (r = InputRole.need_attr) with hcpdef
    constructor
    · intro hrole
      simp only [perturb_batch]
      rw [key]
      simp only [perturb_one]
      rw [if_pos hrole]
    · intro hrole
      have hcplt : cp < fm.length := hcount ▸ countP_take_lt roles p hp2 hrole
      have hmaskeq := perturbation_mask_getD pattern fmap fm cp hcplt
      constructor
      · intro hnone
        simp only [perturb_batch]
        rw [key]
        cases hb : perturbation_mask_indices pattern fmap cp with
        | true =>
          rcases (perturbation_mask_indices_iff pattern fmap fm hmap hrange cp hcplt).1 hb
            with ⟨v, hv, h0⟩
          exact absurd h0 (hnone v hv)
        | false =>
          rw [hb] at hmaskeq
          rw [if_neg Bool.false_ne_true] at hmaskeq
          simp only [perturb_one]
          rw [if_neg (not_not_intro hrole), hmaskeq]
      · rintro ⟨v, hv, h0⟩
        have htrue : perturbation_mask_indices pattern fmap cp = true :=
          (perturbation_mask_indices_iff pattern fmap fm hmap hrange cp hcplt).2 ⟨v, hv, h0⟩
        rw [htrue] at hmaskeq
        rw [if_pos rfl] at hmaskeq
        simp only [perturb_batch]
        rw [key]
        simp only [perturb_one]
        rw [if_neg (not_not_intro hrole), hmaskeq]
  · intro Out F pp sp
    simpa using foldl_record_start F pattern [inputs] roles bs fm pp sp fmap

/-- Witness for C1: a two-input batch, feature 1 zeroed by the pattern; the
second attributable input is rewritten by the perturbation formula. -/
theorem claim1_batch_perturbation_witness :
    (perturb_batch [1, 0]
        (fun j => (List.range 2).filter fun i =>
          decide (j ∈ ([[0], [1]] : List Mask).getD i []))
        [0, 0] [Sum.inl 2, Sum.inl 9] [[0], [1]] [[[5]], [[7]]]).getD 1 []
      = ([[(7 : ℚ)]] : BT).map fun row =>
          perturb_row row (gather_pattern [1, 0] [1]) (Sum.inl 9) :=
  ((((claim1_batch_perturbation [1, 0]
      (fun j => (List.range 2).filter fun i =>
        decide (j ∈ ([[0], [1]] : List Mask).getD i []))
      [0, 0] [Sum.inl 2, Sum.inl 9] [[0], [1]] [[[5]], [[7]]]
      (by
        intro j i
        simp [List.mem_filter, List.mem_range])
      (by decide) (by decide) (by decide)).2.1 1 (by decide)).2 (by decide)).2 (by decide))

/-- Claim C3: within each per-pass forward invocation the accumulator starts
as `None` and `reduce` is applied exactly once per batch of the traversal
(observed through the admissible counting reduce callback); when a to-metric
transform is supplied it is applied exactly once to the final accumulator and
its result is returned, otherwise the accumulator itself is returned; the
default reduce `_concat_tensors` concatenates the batch outputs along the
batch dimension. -/
theorem claim3_reduce_and_to_metric {Out A M : Type} (F : List BT → Out)
    (pattern : List ℚ) (dl : List (List BT)) (roles : List ℕ)
    (bs : List Baseline) (fm : List Mask) (pp : ℤ) (sp : Bool) (fmap : ℕ → List ℕ) :
    (forward_with_dataloader F pattern dl roles bs fm count_calls
        (none : Option (Option ℕ → M)) pp sp fmap
      = Sum.inl (if dl.isEmpty then none else some dl.length))
    ∧ (∀ (R : Option A → Out → List BT → A) (tm : Option A → M),
        forward_with_dataloader F pattern dl roles bs fm R (some tm) pp sp fmap
          = Sum.inr (tm (leftAcc (forward_with_dataloader F pattern dl roles bs fm R
              (none : Option (Option A → M)) pp sp fmap))))
    ∧ (∀ G : List BT → BT,
        forward_with_dataloader G pattern dl roles bs fm concat_tensors
            (none : Option (Option BT → M)) pp sp fmap
          = Sum.inl (if dl.isEmpty then none
              else some ((dl.map fun b =>
                G (forward_inputs roles (perturb_batch pattern fmap roles bs fm b))).flatten))) := by
  refine ⟨foldl_count_start F pattern dl roles bs fm pp sp fmap, ?_, ?_⟩
  · intro R tm
    rfl
  · intro G
    exact foldl_concat_start G pattern dl roles bs fm pp sp fmap

/-- Claim C2: during one per-pass traversal the forward function receives,
for every batch, exactly the tuple positions whose role is not `no_forward`
(`ExcludedFromForward`), in their original tuple order, while the reduce
callback receives the full perturbed tuple with one entry per tuple
position.  The recording reduce callback observes the actual arguments of
every forward and reduce invocation. -/
theorem claim2_role_filtering {Out M : Type} (F : List BT → Out)
    (pattern : List ℚ) (dl : List (List BT)) (roles : List ℕ)
    (bs : List Baseline) (fm : List Mask) (pp : ℤ) (sp : Bool) (fmap : ℕ → List ℕ)
    (hlen : ∀ b ∈ dl, b.length = roles.length) :
    (forward_with_dataloader F pattern dl roles bs fm record_calls
        (none : Option (Option (List (Out × List BT)) → M)) pp sp fmap
      = Sum.inl (if dl.isEmpty then none
          else some (dl.map fun b =>
            (F (forward_inputs roles (perturb_batch pattern fmap roles bs fm b)),
              perturb_batch pattern fmap roles bs fm b))))
    ∧ (∀ k, k ∈ spec_forward_positions roles ↔
        k < roles.length ∧ roles.getD k 0 ≠ InputRole.no_forward)
    ∧ List.Pairwise (· < ·) (spec_forward_positions roles)
    ∧ ∀ b ∈ dl,
        forward_inputs roles (perturb_batch pattern fmap roles bs fm b)
          = (spec_forward_positions roles).map
              (fun p => (perturb_batch pattern fmap roles bs fm b).getD p [])
        ∧ (forward_inputs roles (perturb_batch pattern fmap roles bs fm b)).length
            = roles.countP (fun r => decide (r ≠ InputRole.no_forward))
        ∧ (perturb_batch pattern fmap roles bs fm b).length = roles.length := by
  refine ⟨foldl_record_start F pattern dl roles bs fm pp sp fmap,
    spec_forward_positions_mem roles, spec_forward_positions_sorted roles, ?_⟩
  intro b hb
  have hpb : (perturb_batch pattern fmap roles bs fm b).length = roles.length := by
    rw [perturb_batch_length, hlen b hb, Nat.min_self]
  refine ⟨forward_inputs_eq_spec roles _ hpb, ?_, hpb⟩
  rw [forward_inputs_eq_spec roles _ hpb, List.length_map, spec_forward_positions_length]

/-- Witness for C2 at a concrete dataloader: one batch of three single-row
inputs with roles `[need_attr, need_forward, no_forward]`. -/
theorem claim2_role_filtering_witness :
    forward_inputs [0, 1, 2]
        (perturb_batch [1] (fun _ => []) [0, 1, 2] [Sum.inl 0] [[0]]
          [[[1]], [[2]], [[3]]])
      = (spec_forward_positions [0, 1, 2]).map
          (fun p => (perturb_batch [1] (fun _ => []) [0, 1, 2] [Sum.inl 0] [[0]]
            [[[1]], [[2]], [[3]]]).getD p []) :=
  ((@claim2_role_filtering ℕ Unit List.length [1]
      [[[[1]], [[2]], [[3]]]] [0, 1, 2] [Sum.inl 0] [[0]] 0 false (fun _ => [])
      (by decide)).2.2.2 _ (by simp)).1

/-- Claim C6: with `return_input_shape = false` `attribute` returns the
unique attribution tensor unchanged; with `return_input_shape = true` and a
dataloader yielding tuples it returns one reconstructed tensor per
attributable input in order, and with a dataloader yielding bare tensors it
returns a single tensor rather than a one-element tuple. -/
theorem claim6_result_packaging {R T : Type} :
    (∀ (f : Tensor ℚ → BBArgs R T → Tensor ℚ) (inps : List (Tensor ℚ))
        (rest : List DLItem) (rs : List ℕ) (bs : List ABaseline) (ms : List (Tensor ℕ))
        (reduce : Option R) (to_metric : Option T) (pp : ℤ) (sp : Bool),
      ¬ rs = [] → rs.length = inps.length → (∃ r ∈ rs, r = InputRole.need_attr) →
      (attr_inputs_of inps rs).length = bs.length → bs.all baselineOk = true →
      (attr_inputs_of inps rs).length = ms.length → ms.all maskOk = true →
      (dataloader_attribute f (DLItem.tup inps :: rest) (some rs) (some bs) (some ms)
          reduce to_metric pp sp false
        = Except.ok (AttrResult.flat (f (ones2 1 (get_max_feature_index ms + 1))
            ⟨DLItem.tup inps :: rest, rs, bs, ms,
              (match reduce with
               | some r => ReduceArg.user r
               | none => ReduceArg.defaultConcat), to_metric, pp, sp,
              build_feature_idx_to_mask_idx ms⟩)))
      ∧ (dataloader_attribute f (DLItem.tup inps :: rest) (some rs) (some bs) (some ms)
          reduce to_metric pp sp true
        = Except.ok (AttrResult.tupled (convert_output_shape
            (f (ones2 1 (get_max_feature_index ms + 1))
              ⟨DLItem.tup inps :: rest, rs, bs, ms,
                (match reduce with
                 | some r => ReduceArg.user r
                 | none => ReduceArg.defaultConcat), to_metric, pp, sp,
                build_feature_idx_to_mask_idx ms⟩)
            (attr_inputs_of inps rs) ms)))
      ∧ ∀ u : Tensor ℚ, (convert_output_shape u (attr_inputs_of inps rs) ms).length
          = min (attr_inputs_of inps rs).length ms.length)
    ∧ (∀ (f : Tensor ℚ → BBArgs R T → Tensor ℚ) (t : Tensor ℚ) (rest : List DLItem)
        (reduce : Option R) (to_metric : Option T) (pp : ℤ) (sp : Bool),
      dataloader_attribute f (DLItem.single t :: rest) none none none reduce to_metric
          pp sp true
        = Except.ok (AttrResult.single ((convert_output_shape
            (f (ones2 1 (get_max_feature_index (default_masks_from 0 [t]) + 1))
              ⟨DLItem.single t :: rest, [InputRole.need_attr], [Sum.inl 0],
                default_masks_from 0 [t],
                (match reduce with
                 | some r => ReduceArg.user r
                 | none => ReduceArg.defaultConcat), to_metric, pp, sp,
                build_feature_idx_to_mask_idx (default_masks_from 0 [t])⟩)
            [t] (default_masks_from 0 [t])).getD 0 ⟨[], fun _ => 0⟩))) := by
  constructor
  · intro f inps rest rs bs ms reduce to_metric pp sp hne hlen hattr hbl hbok hml hmok
    refine ⟨?_, ?_, ?_⟩
    · rw [attribute_dispatch_some f inps rest rs (some bs) (some ms) reduce to_metric
        pp sp false hne hlen hattr]
      rw [attribute_with_roles_success f (DLItem.tup inps :: rest) inps true rs (some bs)
        (some ms) reduce to_metric pp sp false hbl hbok hml hmok]
      rfl
    · rw [attribute_dispatch_some f inps rest rs (some bs) (some ms) reduce to_metric
        pp sp true hne hlen hattr]
      rw [attribute_with_roles_success f (DLItem.tup inps :: rest) inps true rs (some bs)
        (some ms) reduce to_metric pp sp true hbl hbok hml hmok]
      rfl
    · intro u
      simp [convert_output_shape]
  · intro f t rest reduce to_metric pp sp
    rfl

/-- Witness for C6: the flat mode of a one-input, one-feature configuration
returns the unique attribution tensor itself. -/
theorem claim6_result_packaging_witness :
    dataloader_attribute (R := Unit) (T := Unit) (fun t _ => t)
        [DLItem.tup [⟨[1, 1], fun _ => 7⟩]] (some [InputRole.need_attr])
        (some [Sum.inl 0]) (some [⟨[1, 1], fun _ => 0⟩]) none none (-1) false true
      = Except.ok (AttrResult.tupled (convert_output_shape
          (ones2 1 (get_max_feature_index [⟨[1, 1], fun _ => 0⟩] + 1))
          (attr_inputs_of [⟨[1, 1], fun _ => 7⟩] [InputRole.need_attr])
          [⟨[1, 1], fun _ => 0⟩])) :=
  ((claim6_result_packaging (R := Unit) (T := Unit)).1 (fun t _ => t)
      [⟨[1, 1], fun _ => 7⟩] [] [InputRole.need_attr] [Sum.inl 0]
      [⟨[1, 1], fun _ => 0⟩] none none (-1) false
      (by decide) (by decide) (by decide) (by decide) (by decide) (by decide)
      (by decide)).2.1

/-- Claim C7: every configuration error — role-tuple length mismatch, no
attributable role, baseline or mask count mismatch against the attributable
inputs, and a baseline or mask tensor whose batch dimension is not 1 — makes
`attribute` return an error whose value is the same for every black box, so
no data-source traversal (which only the black box performs) ever happens. -/
theorem claim7_config_errors {R T : Type} (ablate : Tensor ℚ → BBArgs R T → Tensor ℚ)
    (inps : List (Tensor ℚ)) (rest : List DLItem)
    (baselines : Option (List ABaseline)) (feature_mask : Option (List (Tensor ℕ)))
    (reduce : Option R) (to_metric : Option T) (pp : ℤ) (sp : Bool) (ris : Bool) :
    (∀ rs, ¬ rs = [] → ¬ rs.length = inps.length →
      dataloader_attribute ablate (DLItem.tup inps :: rest) (some rs) baselines
          feature_mask reduce to_metric pp sp ris
        = Except.error "input_roles must have the same size as the return of the dataloader")
    ∧ (∀ rs, ¬ rs = [] → rs.length = inps.length →
        (¬ ∃ r ∈ rs, r = InputRole.need_attr) →
      dataloader_attribute ablate (DLItem.tup inps :: rest) (some rs) baselines
          feature_mask reduce to_metric pp sp ris
        = Except.error "input_roles must contain at least one element need attribution")
    ∧ (∀ rs, ¬ rs = [] → rs.length = inps.length → (∃ r ∈ rs, r = InputRole.need_attr) →
        (¬ (attr_inputs_of inps rs).length
            = (format_baseline baselines (attr_inputs_of inps rs)).length) →
      dataloader_attribute ablate (DLItem.tup inps :: rest) (some rs) baselines
          feature_mask reduce to_metric pp sp ris
        = Except.error "Baselines must have the same size as the return of the dataloader that need attribution")
    ∧ (∀ rs, ¬ rs = [] → rs.length = inps.length → (∃ r ∈ rs, r = InputRole.need_attr) →
        ((attr_inputs_of inps rs).length
            = (format_baseline baselines (attr_inputs_of inps rs)).length) →
        (¬ (format_baseline baselines (attr_inputs_of inps rs)).all baselineOk = true) →
      dataloader_attribute ablate (DLItem.tup inps :: rest) (some rs) baselines
          feature_mask reduce to_metric pp sp ris
        = Except.error "If the baseline is a tensor, its 1st dim of baseline must be 1")
    ∧ (∀ rs, ¬ rs = [] → rs.length = inps.length → (∃ r ∈ rs, r = InputRole.need_attr) →
        ((attr_inputs_of inps rs).length
            = (format_baseline baselines (attr_inputs_of inps rs)).length) →
        ((format_baseline baselines (attr_inputs_of inps rs)).all baselineOk = true) →
        (¬ (attr_inputs_of inps rs).length
            = (format_feature_mask feature_mask (attr_inputs_of inps rs)).length) →
      dataloader_attribute ablate (DLItem.tup inps :: rest) (some rs) baselines
          feature_mask reduce to_metric pp sp ris
        = Except.error "Feature mask must have the same size as the return of the dataloader that need attribution")
    ∧ (∀ rs, ¬ rs = [] → rs.length = inps.length → (∃ r ∈ rs, r = InputRole.need_attr) →
        ((attr_inputs_of inps rs).length
            = (format_baseline baselines (attr_inputs_of inps rs)).length) →
        ((format_baseline baselines (attr_inputs_of inps rs)).all baselineOk = true) →
        ((attr_inputs_of inps rs).length
            = (format_feature_mask feature_mask (attr_inputs_of inps rs)).length) →
        (¬ (format_feature_mask feature_mask (attr_inputs_of inps rs)).all maskOk = true) →
      dataloader_attribute ablate (DLItem.tup inps :: rest) (some rs) baselines
          feature_mask reduce to_metric pp sp ris
        = Except.error "The 1st dim of feature_mask must be 1") := by
  refine ⟨?_, ?_, ?_, ?_, ?_, ?_⟩
  · intro rs hne hlen
    exact attribute_dispatch_err_roles_len ablate inps rest rs baselines feature_mask
      reduce to_metric pp sp ris hne hlen
  · intro rs hne hlen hattr
    exact attribute_dispatch_err_roles_attr ablate inps rest rs baselines feature_mask
      reduce to_metric pp sp ris hne hlen hattr
  · intro rs hne hlen hattr hbl
    rw [attribute_dispatch_some ablate inps rest rs baselines feature_mask reduce
      to_metric pp sp ris hne hlen hattr]
    exact attribute_with_roles_err_baseline_len ablate _ inps true rs baselines
      feature_mask reduce to_metric pp sp ris hbl
  · intro rs hne hlen hattr hbl hbok
    rw [attribute_dispatch_some ablate inps rest rs baselines feature_mask reduce
      to_metric pp sp ris hne hlen hattr]
    exact attribute_with_roles_err_baseline_dim ablate _ inps true rs baselines
      feature_mask reduce to_metric pp sp ris hbl hbok
  · intro rs hne hlen hattr hbl hbok hml
    rw [attribute_dispatch_some ablate inps rest rs baselines feature_mask reduce
      to_metric pp sp ris hne hlen hattr]
    exact attribute_with_roles_err_mask_len ablate _ inps true rs baselines
      feature_mask reduce to_metric pp sp ris hbl hbok hml
  · intro rs hne hlen hattr hbl hbok hml hmok
    rw [attribute_dispatch_some ablate inps rest rs baselines feature_mask reduce
      to_metric pp sp ris hne hlen hattr]
    exact attribute_with_roles_err_mask_dim ablate _ inps true rs baselines
      feature_mask reduce to_metric pp sp ris hbl hbok hml hmok

/-- Witness for C7: three concrete configuration errors (role length
mismatch, no attributable role, baseline count mismatch, and a baseline
tensor with batch dimension 2) each produce the corresponding error. -/
theorem claim7_config_errors_witness :
    (dataloader_attribute (R := Unit) (T := Unit) (fun t _ => t)
        [DLItem.tup [⟨[1, 1], fun _ => 5⟩]] (some [0, 0]) none none none none (-1)
        false true
      = Except.error "input_roles must have the same size as the return of the dataloader")
    ∧ (dataloader_attribute (R := Unit) (T := Unit) (fun t _ => t)
        [DLItem.tup [⟨[1, 1], fun _ => 5⟩]] (some [InputRole.need_forward]) none none
        none none (-1) false true
      = Except.error "input_roles must contain at least one element need attribution")
    ∧ (dataloader_attribute (R := Unit) (T := Unit) (fun t _ => t)
        [DLItem.tup [⟨[1, 1], fun _ => 5⟩]] (some [InputRole.need_attr])
        (some [Sum.inl 0, Sum.inl 1]) none none none (-1) false true
      = Except.error "Baselines must have the same size as the return of the dataloader that need attribution")
    ∧ (dataloader_attribute (R := Unit) (T := Unit) (fun t _ => t)
        [DLItem.tup [⟨[1, 1], fun _ => 5⟩]] (some [InputRole.need_attr])
        (some [Sum.inr ⟨[2, 1], fun _ => 0⟩]) none none none (-1) false true
      = Except.error "If the baseline is a tensor, its 1st dim of baseline must be 1") :=
  ⟨(claim7_config_errors (R := Unit) (T := Unit) (fun t _ => t)
      [⟨[1, 1], fun _ => 5⟩] [] none none none none (-1) false true).1
      [0, 0] (by decide) (by decide),
    (claim7_config_errors (R := Unit) (T := Unit) (fun t _ => t)
      [⟨[1, 1], fun _ => 5⟩] [] none none none none (-1) false true).2.1
      [InputRole.need_forward] (by decide) (by decide) (by decide),
    (claim7_config_errors (R := Unit) (T := Unit) (fun t _ => t)
      [⟨[1, 1], fun _ => 5⟩] [] (some [Sum.inl 0, Sum.inl 1]) none none none (-1) false
      true).2.2.1 [InputRole.need_attr] (by decide) (by decide) (by decide) (by decide),
    (claim7_config_errors (R := Unit) (T := Unit) (fun t _ => t)
      [⟨[1, 1], fun _ => 5⟩] [] (some [Sum.inr ⟨[2, 1], fun _ => 0⟩]) none none none
      (-1) false true).2.2.2.1 [InputRole.need_attr] (by decide) (by decide) (by decide)
      (by decide) (by decide)⟩

/-- Claim C8: the reverse map built at the start of `attribute` maps each
canonical feature index to exactly the attributable-input positions whose
mask contains that index (in increasing position order), and when every
canonical index in `[0, n_features)` occurs in some mask — the spec's
validity condition — every such index maps to a non-empty list. -/
theorem claim8_feature_idx_to_mask_idx (masks : List (Tensor ℕ)) :
    (∀ j i, i ∈ build_feature_idx_to_mask_idx masks j
        ↔ i < masks.length ∧ j ∈ tvalues (masks.getD i ⟨[], fun _ => 0⟩))
    ∧ (∀ j, List.Pairwise (· < ·) (build_feature_idx_to_mask_idx masks j))
    ∧ ((∀ k, k < get_max_feature_index masks + 1 →
          ∃ i, i < masks.length ∧ k ∈ tvalues (masks.getD i ⟨[], fun _ => 0⟩)) →
        ∀ k, k < get_max_feature_index masks + 1 →
          build_feature_idx_to_mask_idx masks k ≠ []) := by
  refine ⟨build_fmap_mem masks, build_fmap_sorted masks, ?_⟩
  intro hvalid k hk
  rcases hvalid k hk with ⟨i, hi, hmem⟩
  exact List.ne_nil_of_mem ((build_fmap_mem masks k i).2 ⟨hi, hmem⟩)

/-- Witness for C8 at a concrete one-mask configuration with features 0 and
1: both canonical indices map to a non-empty list. -/
theorem claim8_feature_idx_to_mask_idx_witness :
    build_feature_idx_to_mask_idx [⟨[1, 2], fun idx => idx.getD 1 0⟩] 1 ≠ [] :=
  (claim8_feature_idx_to_mask_idx [⟨[1, 2], fun idx => idx.getD 1 0⟩]).2.2
    (by decide) 1 (by decide)

/-- Claim C5: under a valid configuration `attribute` makes exactly one call
to the black-box ablation algorithm: its result is determined by the black
box's value at the single argument pair consisting of the ones tensor of
shape `(1, n_features)` and the fixed additional arguments, where
`n_features` is one plus the maximum integer value across all feature
masks. -/
theorem claim5_single_blackbox_call {R T : Type}
    (inps : List (Tensor ℚ)) (rest : List DLItem) (rs : List ℕ)
    (bs : List ABaseline) (ms : List (Tensor ℕ))
    (reduce : Option R) (to_metric : Option T) (pp : ℤ) (sp : Bool)
    (hne : ¬ rs = []) (hlen : rs.length = inps.length)
    (hattr : ∃ r ∈ rs, r = InputRole.need_attr)
    (hbl : (attr_inputs_of inps rs).length = bs.length)
    (hbok : bs.all baselineOk = true)
    (hml : (attr_inputs_of inps rs).length = ms.length)
    (hmok : ms.all maskOk = true) :
    ((ones2 1 (get_max_feature_index ms + 1)).shape = [1, get_max_feature_index ms + 1]
      ∧ ∀ idx, (ones2 1 (get_max_feature_index ms + 1)).val idx = 1)
    ∧ (∀ m ∈ ms, ∀ v ∈ tvalues m, v < get_max_feature_index ms + 1)
    ∧ ((∃ m ∈ ms, tvalues m ≠ []) → ∃ m ∈ ms, get_max_feature_index ms ∈ tvalues m)
    ∧ (∀ f : Tensor ℚ → BBArgs R T → Tensor ℚ,
        dataloader_attribute f (DLItem.tup inps :: rest) (some rs) (some bs) (some ms)
            reduce to_metric pp sp false
          = Except.ok (AttrResult.flat (f (ones2 1 (get_max_feature_index ms + 1))
              ⟨DLItem.tup inps :: rest, rs, bs, ms,
                (match reduce with
                 | some r => ReduceArg.user r
                 | none => ReduceArg.defaultConcat), to_metric, pp, sp,
                build_feature_idx_to_mask_idx ms⟩)))
    ∧ (∀ (f g : Tensor ℚ → BBArgs R T → Tensor ℚ) (ris : Bool),
        f (ones2 1 (get_max_feature_index ms + 1))
            ⟨DLItem.tup inps :: rest, rs, bs, ms,
              (match reduce with
               | some r => ReduceArg.user r
               | none => ReduceArg.defaultConcat), to_metric, pp, sp,
              build_feature_idx_to_mask_idx ms⟩
          = g (ones2 1 (get_max_feature_index ms + 1))
              ⟨DLItem.tup inps :: rest, rs, bs, ms,
                (match reduce with
                 | some r => ReduceArg.user r
                 | none => ReduceArg.defaultConcat), to_metric, pp, sp,
                build_feature_idx_to_mask_idx ms⟩ →
        dataloader_attribute f (DLItem.tup inps :: rest) (some rs) (some bs) (some ms)
            reduce to_metric pp sp ris
          = dataloader_attribute g (DLItem.tup inps :: rest) (some rs) (some bs) (some ms)
              reduce to_metric pp sp ris) := by
  refine ⟨⟨rfl, fun idx => rfl⟩, ?_, get_max_attained ms, ?_, ?_⟩
  · intro m hm v hv
    exact Nat.lt_succ_of_le (get_max_is_ub ms m hm v hv)
  · intro f
    rw [attribute_dispatch_some f inps rest rs (some bs) (some ms) reduce to_metric pp sp
      false hne hlen hattr]
    rw [attribute_with_roles_success f (DLItem.tup inps :: rest) inps true rs (some bs)
      (some ms) reduce to_metric pp sp false hbl hbok hml hmok]
    rfl
  · intro f g ris h
    rw [attribute_dispatch_some f inps rest rs (some bs) (some ms) reduce to_metric pp sp
      ris hne hlen hattr]
    rw [attribute_dispatch_some g inps rest rs (some bs) (some ms) reduce to_metric pp sp
      ris hne hlen hattr]
    rw [attribute_with_roles_success f (DLItem.tup inps :: rest) inps true rs (some bs)
      (some ms) reduce to_metric pp sp ris hbl hbok hml hmok]
    rw [attribute_with_roles_success g (DLItem.tup inps :: rest) inps true rs (some bs)
      (some ms) reduce to_metric pp sp ris hbl hbok hml hmok]
    simp only [format_baseline, format_feature_mask] at h ⊢
    rw [h]

/-- Witness for C5 at a concrete one-input, one-feature configuration with
the identity black box. -/
theorem claim5_single_blackbox_call_witness :
    dataloader_attribute (R := Unit) (T := Unit) (fun t _ => t)
        [DLItem.tup [⟨[1, 1], fun _ => 5⟩]] (some [InputRole.need_attr])
        (some [Sum.inl 0]) (some [⟨[1, 1], fun _ => 0⟩]) none none (-1) false false
      = Except.ok (AttrResult.flat (ones2 1
          (get_max_feature_index [⟨[1, 1], fun _ => 0⟩] + 1))) :=
  (claim5_single_blackbox_call (R := Unit) (T := Unit)
      [⟨[1, 1], fun _ => 5⟩] [] [InputRole.need_attr] [Sum.inl 0]
      [⟨[1, 1], fun _ => 0⟩] none none (-1) false
      (by decide) (by decide) (by decide) (by decide) (by decide) (by decide)
      (by decide)).2.2.2.1 (fun t _ => t)

/-- Claim C9: constructing the dataloader-attribution wrapper succeeds for
`FeatureAblation` and fails immediately with the unsupported-method error for
every other attribution-method type. -/
theorem claim9_unsupported_method :
    DataloaderAttribution.init AttrMethodType.featureAblation = Except.ok ()
    ∧ ∀ t : AttrMethodType, t ≠ AttrMethodType.featureAblation →
        DataloaderAttribution.init t
          = Except.error ("DataloaderAttribution does not support " ++ t.methodName) := by
  constructor
  · rfl
  · intro t ht
    unfold DataloaderAttribution.init
    rw [if_neg]
    intro hmem
    exact ht (by simpa [SUPPORTED_METHODS] using hmem)

/-- Witness for C9: constructing with `Saliency` fails with the
unsupported-method error. -/
theorem claim9_unsupported_method_witness :
    DataloaderAttribution.init AttrMethodType.saliency
      = Except.error ("DataloaderAttribution does not support "
          ++ AttrMethodType.saliency.methodName) :=
  claim9_unsupported_method.2 AttrMethodType.saliency (by decide)

/-- Claim C10: an explicitly supplied empty role tuple is falsy, so the two
role validations are skipped and every position defaults to `need_attr`;
`attribute` behaves exactly as if `input_roles` had been omitted, and never
reports the empty role assignment as a configuration error. -/
theorem claim10_empty_roles_like_omitted {R T : Type}
    (ablate : Tensor ℚ → BBArgs R T → Tensor ℚ) (dl : List DLItem)
    (baselines : Option (List ABaseline)) (feature_mask : Option (List (Tensor ℕ)))
    (reduce : Option R) (to_metric : Option T) (pp : ℤ) (sp : Bool) (ris : Bool) :
    dataloader_attribute ablate dl (some []) baselines feature_mask reduce to_metric
        pp sp ris
      = dataloader_attribute ablate dl none baselines feature_mask reduce to_metric
          pp sp ris := by
  cases dl with
  | nil => rfl
  | cons item rest =>
    simp only [dataloader_attribute, List.head?_cons]
    rw [if_pos trivial]

end DataloaderAttr
